import Mathlib

/-!
Verification of the fast Gmail cleanup tool (`emailcleanup.py`).

The pure logic of the program (classification rules, date filtering,
batch accounting, cancellation, deletion bookkeeping and the
confirmation gate) is embedded as executable Lean definitions, and the
specification's claims about it are proved or refuted below.

Network effects are modelled by explicit oracles: each message carries
the outcome of its (at most two) header-fetch attempts and of the
reconnect probe; the deletion executor carries a per-message store
oracle and an expunge oracle.  The external RFC-2822 date parser
(`email.utils.parsedate_tz`) is a parameter `p` returning the calendar
seconds of the parsed tuple together with its optional timezone offset.
-/

namespace EmailCleanup

/-- Contiguous-substring search on character lists. -/
def charsContain (needle : List Char) : List Char → Bool
  | [] => needle.isEmpty
  | c :: rest => needle.isPrefixOf (c :: rest) || charsContain needle rest

/-- Python's substring test `needle in hay`. -/
def strIn (needle hay : String) : Bool :=
  charsContain needle.toList hay.toList

/-- Python's `str.lower()`, modelled characterwise (the rule fragments
and addresses the program compares are ASCII, where this is exact). -/
def str_lower (s : String) : String :=
  String.mk (s.toList.map Char.toLower)

/-- Python's `str.split(sep)` for a one-character separator. -/
def splitOnChar (sep : Char) : List Char → List (List Char)
  | [] => [[]]
  | c :: rest =>
    match splitOnChar sep rest with
    | [] => []
    | g :: gs => if c = sep then [] :: g :: gs else (c :: g) :: gs

example : splitOnChar '@' "a@b.com".toList = ["a".toList, "b.com".toList] := by decide
example : splitOnChar '@' "abc".toList = ["abc".toList] := by decide

/-- The pattern rule group (`UNNECESSARY_PATTERNS` in the source; the raw
regex fragments are used by the code as plain substrings). -/
def UNNECESSARY_PATTERNS : List String :=
  ["noreply", "no-reply", "donotreply", "notification", "newsletter",
   "unsubscribe", "promotional", "marketing", "sale", "offer", "deal",
   "discount", "coupon", "survey", "feedback", "social.*notification",
   "linkedin.*invitation", "facebook.*notification", "twitter.*notification",
   "instagram.*notification", "spam", "advertisement", "promo",
   "alert.*account", "security.*alert", "backup.*complete",
   "system.*notification", "automated.*message", "digest",
   "weekly.*update", "monthly.*report"]

/-- The domain rule group (`UNNECESSARY_DOMAINS`). -/
def UNNECESSARY_DOMAINS : List String :=
  ["newsletters.com", "marketing.com", "promo.com", "noreply.com",
   "notifications.com", "alerts.com", "survey.com", "feedback.com",
   "mailchimp.com", "constantcontact.com", "sendgrid.net", "mailgun.org"]

/-- The sender-local-part rule group (`UNNECESSARY_SENDERS`). -/
def UNNECESSARY_SENDERS : List String :=
  ["newsletter", "marketing", "promo", "deals", "offers", "support",
   "team", "hello", "info", "updates", "notifications"]

/-- The promotional keywords tested against the subject only
(`promo_keywords` local list in `is_unnecessary_email_fast`). -/
def promo_keywords : List String :=
  ["sale", "discount", "offer", "deal", "coupon", "% off", "free shipping"]

/-- Source line `sender_lower.split(at)[-1] if at in sender_lower else empty`,
writing `at` for the at-sign character. -/
def sender_domain_of (sender_lower : String) : String :=
  if strIn "@" sender_lower then
    String.mk ((splitOnChar '@' sender_lower.toList).getLastD [])
  else ""

/-- Source line `sender_lower.split(at)[0] if at in sender_lower else sender_lower`. -/
def sender_name_of (sender_lower : String) : String :=
  if strIn "@" sender_lower then
    String.mk ((splitOnChar '@' sender_lower.toList).headD [])
  else sender_lower

/-- Source function `is_unnecessary_email_fast(sender, subject, sender_full)`: the four
rule groups tried in source order, first hit returned with its reason. -/
def is_unnecessary_email_fast (sender subject sender_full : String) : Bool × String :=
  let sender_lower := str_lower sender
  let subject_lower := str_lower subject
  let sender_full_lower := str_lower sender_full
  match UNNECESSARY_PATTERNS.find?
      (fun p => strIn p sender_lower || strIn p subject_lower || strIn p sender_full_lower) with
  | some p => (true, "Contains pattern: " ++ p)
  | none =>
    match UNNECESSARY_DOMAINS.find?
        (fun d => strIn d (sender_domain_of sender_lower)) with
    | some d => (true, "Sender domain: " ++ d)
    | none =>
      match UNNECESSARY_SENDERS.find?
          (fun kw => strIn kw (sender_name_of sender_lower)) with
      | some kw => (true, "Sender name contains: " ++ kw)
      | none =>
        match promo_keywords.find? (fun kw => strIn kw subject_lower) with
        | some kw => (true, "Promotional keyword: " ++ kw)
        | none => (false, "Not identified as unnecessary")

/-- Specification-side rendering of the classifier (spec section 4.3):
the four rule groups are concatenated in priority order, every matching
rule contributes its rendered reason, and the overall answer is the head
of that hit list — "first match wins" — with the fixed fallback when the
hit list is empty. -/
def classify_spec (sender subject sender_full : String) : Bool × String :=
  let sender_lower := str_lower sender
  let subject_lower := str_lower subject
  let sender_full_lower := str_lower sender_full
  let hits :=
    (UNNECESSARY_PATTERNS.filter
        (fun p => strIn p sender_lower || strIn p subject_lower || strIn p sender_full_lower)).map
      (fun p => "Contains pattern: " ++ p)
    ++ (UNNECESSARY_DOMAINS.filter
        (fun d => strIn d (sender_domain_of sender_lower))).map
      (fun d => "Sender domain: " ++ d)
    ++ (UNNECESSARY_SENDERS.filter
        (fun kw => strIn kw (sender_name_of sender_lower))).map
      (fun kw => "Sender name contains: " ++ kw)
    ++ (promo_keywords.filter (fun kw => strIn kw subject_lower)).map
      (fun kw => "Promotional keyword: " ++ kw)
  match hits.head? with
  | some r => (true, r)
  | none => (false, "Not identified as unnecessary")

example :
    is_unnecessary_email_fast "newsletter@updates.com" "Weekly Digest"
      "newsletter@updates.com" = (true, "Contains pattern: newsletter") := by decide
example :
    is_unnecessary_email_fast "friend@gmail.com" "Dinner Friday?" "friend@gmail.com" =
      (false, "Not identified as unnecessary") := by decide
example :
    is_unnecessary_email_fast "bob@shop.com" "50% off today!" "Bob <bob@shop.com>" =
      (true, "Promotional keyword: % off") := by decide

lemma find?_filter_head? (p : α → Bool) (l : List α) :
    l.find? p = (l.filter p).head? := by
  induction l with
  | nil => rfl
  | cons x xs ih =>
    by_cases hx : p x
    · rw [List.find?_cons_of_pos _ hx, List.filter_cons_of_pos hx]
      rfl
    · rw [List.find?_cons_of_neg _ hx, List.filter_cons_of_neg hx, ih]

lemma head?_append_cases (l l' : List α) :
    (l ++ l').head? = match l.head? with
      | some a => some a
      | none => l'.head? := by
  cases l <;> simp

lemma head?_map (f : α → β) (l : List α) :
    (l.map f).head? = l.head?.map f := by
  cases l <;> simp

/-- Claim C3: for every input triple, the classifier performs
case-insensitive substring matching over four rule groups in the fixed
priority order (patterns, then domains against the text after the at
sign, then sender-local-part rules against the text before it, then
promotional keywords against the subject only); the first matching rule
determines the result, the returned reason names the triggering
fragment, and if no rule matches the result is Keep with the fixed
not-unnecessary reason.  Stated as: the source classifier coincides with
the specification-worded first-match-wins rendering. -/
theorem classifier_refines_spec (sender subject sender_full : String) :
    is_unnecessary_email_fast sender subject sender_full =
      classify_spec sender subject sender_full := by
  unfold is_unnecessary_email_fast classify_spec
  dsimp only
  rw [find?_filter_head?, find?_filter_head?, find?_filter_head?, find?_filter_head?,
    head?_append_cases, head?_append_cases, head?_append_cases,
    head?_map, head?_map, head?_map, head?_map]
  cases (UNNECESSARY_PATTERNS.filter fun p =>
      strIn p (str_lower sender) || strIn p (str_lower subject) || strIn p (str_lower sender_full)).head? with
  | some a => rfl
  | none =>
    cases (UNNECESSARY_DOMAINS.filter fun d =>
        strIn d (sender_domain_of (str_lower sender))).head? with
    | some a => rfl
    | none =>
      cases (UNNECESSARY_SENDERS.filter fun kw =>
          strIn kw (sender_name_of (str_lower sender))).head? with
      | some a => rfl
      | none =>
        cases (promo_keywords.filter fun kw => strIn kw (str_lower subject)).head? with
        | some a => rfl
        | none => rfl

/-- Characters strictly before the first close-angle bracket, or `none`
when there is no close-angle bracket at all. -/
def beforeGt : List Char → Option (List Char)
  | [] => none
  | c :: rest => if c = '>' then some [] else (beforeGt rest).map (c :: ·)

/-- Leftmost match of the regex fragment `<([^>]+)>` used by
`re.search` in `process_email_batch`: scan for an open-angle bracket
followed by a nonempty run of non-close characters and a close-angle
bracket, returning the captured group. -/
def firstAngleGroup : List Char → Option (List Char)
  | [] => none
  | c :: rest =>
    if c = '<' then
      match beforeGt rest with
      | some [] => firstAngleGroup rest
      | some g => some g
      | none => firstAngleGroup rest
    else firstAngleGroup rest

/-- Source line `sender = sender_match.group(1) if sender_match else sender_full`. -/
def extract_sender (sender_full : String) : String :=
  match firstAngleGroup sender_full.toList with
  | some g => String.mk g
  | none => sender_full

example : extract_sender "Shop <promo@shop.com>" = "promo@shop.com" := by decide
example : extract_sender "x<<a>" = "<a" := by decide
example : extract_sender "a<>b<c>" = "c" := by decide
example : extract_sender "friend" = "friend" := by decide

lemma beforeGt_no_gt (g : List Char) (post : List Char) (hg : '>' ∉ g) :
    beforeGt (g ++ '>' :: post) = some g := by
  induction g with
  | nil => simp [beforeGt]
  | cons c cs ih =>
    have hc : c ≠ '>' := fun h => hg (h ▸ List.mem_cons_self c cs)
    have hcs : '>' ∉ cs := fun h => hg (List.mem_cons_of_mem c h)
    simp [beforeGt, hc, ih hcs]

lemma firstAngleGroup_cons_lt (rest : List Char) :
    firstAngleGroup ('<' :: rest) = match beforeGt rest with
      | some [] => firstAngleGroup rest
      | some g => some g
      | none => firstAngleGroup rest := rfl

lemma firstAngleGroup_cons_ne (c : Char) (rest : List Char) (hc : c ≠ '<') :
    firstAngleGroup (c :: rest) = firstAngleGroup rest := by
  simp [firstAngleGroup, hc]

lemma firstAngleGroup_exact (pre g post : List Char)
    (hpre : '<' ∉ pre) (hg : '>' ∉ g) (hne : g ≠ []) :
    firstAngleGroup (pre ++ ('<' :: (g ++ ('>' :: post)))) = some g := by
  induction pre with
  | nil =>
    rw [List.nil_append, firstAngleGroup_cons_lt, beforeGt_no_gt g post hg]
    cases g with
    | nil => exact absurd rfl hne
    | cons c cs => rfl
  | cons c cs ih =>
    have hc : c ≠ '<' := fun h => hpre (h ▸ List.mem_cons_self c cs)
    have hcs : '<' ∉ cs := fun h => hpre (List.mem_cons_of_mem c h)
    rw [List.cons_append, firstAngleGroup_cons_ne c _ hc]
    exact ih hcs

lemma firstAngleGroup_no_lt (l : List Char) (h : '<' ∉ l) :
    firstAngleGroup l = none := by
  induction l with
  | nil => rfl
  | cons c cs ih =>
    have hc : c ≠ '<' := fun hh => h (hh ▸ List.mem_cons_self c cs)
    have hcs : '<' ∉ cs := fun hh => h (List.mem_cons_of_mem c hh)
    simp [firstAngleGroup, hc, ih hcs]

/-- Claim C10: the sender passed to the classifier is the text inside
the first angle-bracket pair of the decoded From value when one exists,
and the whole From value otherwise; hence for a From value with no
angle brackets and no at sign, the domain rules compare against the
empty string and the local-part rules against the whole string. -/
theorem sender_extraction_spec (pre g post : List Char) (sender_full : String) :
    ('<' ∉ pre → '>' ∉ g → g ≠ [] →
      extract_sender (String.mk (pre ++ ('<' :: (g ++ ('>' :: post))))) = String.mk g) ∧
    ('<' ∉ sender_full.toList → extract_sender sender_full = sender_full) ∧
    ('<' ∉ sender_full.toList → strIn "@" (str_lower sender_full) = false →
      sender_domain_of (str_lower (extract_sender sender_full)) = "" ∧
      sender_name_of (str_lower (extract_sender sender_full)) = str_lower sender_full) := by
  refine ⟨fun h1 h2 h3 => ?_, fun h => ?_, fun h h2 => ?_⟩
  · show (match firstAngleGroup (String.mk (pre ++ ('<' :: (g ++ ('>' :: post))))).toList with
      | some g => String.mk g
      | none => String.mk (pre ++ ('<' :: (g ++ ('>' :: post))))) = String.mk g
    rw [show (String.mk (pre ++ ('<' :: (g ++ ('>' :: post))))).toList
        = pre ++ ('<' :: (g ++ ('>' :: post))) from rfl]
    rw [firstAngleGroup_exact pre g post h1 h2 h3]
  · show (match firstAngleGroup sender_full.toList with
      | some g => String.mk g
      | none => sender_full) = sender_full
    rw [firstAngleGroup_no_lt _ h]
  · have he : extract_sender sender_full = sender_full := by
      show (match firstAngleGroup sender_full.toList with
        | some g => String.mk g
        | none => sender_full) = sender_full
      rw [firstAngleGroup_no_lt _ h]
    rw [he]
    constructor
    · simp [sender_domain_of, h2]
    · simp [sender_name_of, h2]

/-- Witness for C10 at the concrete From value `ab` and pair input
`a<b>c`. -/
theorem sender_extraction_spec_witness :
    extract_sender (String.mk (['a'] ++ ('<' :: (['b'] ++ ('>' :: ['c']))))) = String.mk ['b'] ∧
    extract_sender "ab" = "ab" ∧
    sender_domain_of (str_lower (extract_sender "ab")) = "" ∧
    sender_name_of (str_lower (extract_sender "ab")) = str_lower "ab" := by
  have h := sender_extraction_spec ['a'] ['b'] ['c'] "ab"
  refine ⟨h.1 (by decide) (by decide) (by decide), h.2.1 (by decide), ?_⟩
  exact h.2.2 (by decide) (by decide)

/-- Library call `email.utils.mktime_tz(tuple)`: when the parsed tuple carries a
timezone offset `off`, the epoch instant is the tuple's calendar seconds
minus `off`; when the tuple has no offset, the tuple is interpreted as
machine-local wall-clock time (`time.mktime`), i.e. calendar seconds
minus the machine's UTC offset `localOff`. -/
def mktime_tz (localOff : Int) (t : Int) : Option Int → Int
  | some off => t - off
  | none => t - localOff

/-- Library call `datetime.datetime.fromtimestamp(ts)` with no `tz` argument: renders
the epoch instant `ts` as a naive machine-local wall-clock value, i.e.
adds the machine's UTC offset `localOff`. -/
def fromtimestamp (localOff ts : Int) : Int :=
  ts + localOff

/-- Source function `parse_email_date(date_str)`.  The external library parser
`parsedate_tz` is the parameter `p`, returning `none` on any unparsable
input (also standing for a raised exception, which the source swallows)
and otherwise the calendar seconds of the parsed tuple with its optional
timezone offset. -/
def parse_email_date (p : String → Option (Int × Option Int)) (localOff : Int)
    (date_str : String) : Option Int :=
  if date_str = "" then none
  else
    match p date_str with
    | some (t, off) => some (fromtimestamp localOff (mktime_tz localOff t off))
    | none => none

/-- A concrete stand-in for `parsedate_tz` recognising one fixed date
string that denotes the Unix epoch with an explicit +01:00 offset. -/
def epochParser : String → Option (Int × Option Int) :=
  fun s => if s = "Thu, 01 Jan 1970 01:00:00 +0100" then some (3600, some 3600) else none

/-- Counterexample to claim C8: on a machine whose local UTC offset is
-18000 seconds (UTC-5), the date string denoting the Unix epoch (whose
UTC-equivalent instant value is 0) is parsed to -18000 — the machine's
local wall-clock rendering of that instant — so the parser does not
return the UTC-equivalent instant itself. -/
theorem date_parser_local_rendering_cex :
    parse_email_date epochParser (-18000) "Thu, 01 Jan 1970 01:00:00 +0100" =
      some (-18000) ∧ ((-18000 : Int) ≠ 0) := by
  constructor
  · rfl
  · decide

/-- Claim C8 as amended: the parser maps every empty or unparsable date
string to Unknown without raising; for every parsable date string with a
timezone offset it correctly applies the offset to obtain the absolute
instant `t - off`, but returns that instant's machine-local wall-clock
rendering `t - off + localOff` rather than the UTC rendering; since the
cutoff is also a machine-local wall-clock value, comparisons stay
order-correct: two date strings denoting the same absolute instant
under different offsets parse to the same value. -/
theorem date_parser_amended (p : String → Option (Int × Option Int)) (localOff : Int)
    (s s₁ s₂ : String) (t₁ o₁ t₂ o₂ : Int) :
    ((s = "" ∨ p s = none) → parse_email_date p localOff s = none) ∧
    (s₁ ≠ "" → p s₁ = some (t₁, some o₁) →
      parse_email_date p localOff s₁ = some (t₁ - o₁ + localOff)) ∧
    (s₁ ≠ "" → s₂ ≠ "" → p s₁ = some (t₁, some o₁) → p s₂ = some (t₂, some o₂) →
      t₁ - o₁ = t₂ - o₂ →
      parse_email_date p localOff s₁ = parse_email_date p localOff s₂) := by
  refine ⟨fun h => ?_, fun h1 h2 => ?_, fun h1 h2 h3 h4 h5 => ?_⟩
  · rcases h with h | h
    · simp [parse_email_date, h]
    · by_cases hs : s = "" <;> simp [parse_email_date, hs, h]
  · simp [parse_email_date, h1, h2, fromtimestamp, mktime_tz]
  · simp [parse_email_date, h1, h2, h3, h4, fromtimestamp, mktime_tz, h5]

/-- Witness for the amended C8 at concrete inputs: the empty string and
an unparsable string give Unknown; the epoch date string with offset
+01:00 parses, on a UTC-5 machine, to the local rendering -18000; and a
second rendering of the same instant parses to the same value. -/
theorem date_parser_amended_witness :
    parse_email_date epochParser (-18000) "" = none ∧
    parse_email_date epochParser (-18000) "gibberish" = none ∧
    parse_email_date epochParser (-18000) "Thu, 01 Jan 1970 01:00:00 +0100" =
      some ((3600 : Int) - 3600 + (-18000)) := by
  have h1 := (date_parser_amended epochParser (-18000) "" "x" "y" 0 0 0 0).1 (Or.inl rfl)
  have h2 := (date_parser_amended epochParser (-18000) "gibberish" "x" "y" 0 0 0 0).1
    (Or.inr (by decide))
  have h3 := (date_parser_amended epochParser (-18000) ""
    "Thu, 01 Jan 1970 01:00:00 +0100" "y" 3600 3600 0 0).2.1 (by decide) (by decide)
  exact ⟨h1, h2, h3⟩

/-- Decoded header fields of one message (From, Subject, Date). -/
structure Headers where
  sender_full : String
  subject : String
  date_str : String
deriving DecidableEq

/-- Outcome of one `mail.fetch` attempt: a successful header fetch, a
non-OK protocol status, or a raised transport exception. -/
inductive FetchOutcome
  | ok (h : Headers)
  | badStatus
  | exn
deriving DecidableEq

def FetchOutcome.isOk : FetchOutcome → Bool
  | .ok _ => true
  | _ => false

/-- One unread message id together with the oracle describing what the
network would do on its first fetch attempt, on the retry's
`reconnect_if_needed` probe, and on its second fetch attempt. -/
structure Email where
  id : Nat
  a1 : FetchOutcome
  reconnectOk : Bool
  a2 : FetchOutcome
deriving DecidableEq

/-- The per-message record appended to `batch_results`: either the keep
dict `{id, action: keep, reason}` or the delete dict
`{id, action: delete, date, sender, subject, reason}`. -/
inductive EmailResult
  | keep (id : Nat) (reason : String)
  | delete (id : Nat) (date : Int) (sender subject reason : String)
deriving DecidableEq

def EmailResult.rid : EmailResult → Nat
  | .keep i _ => i
  | .delete i _ _ _ _ => i

def EmailResult.isDelete : EmailResult → Bool
  | .delete _ _ _ _ _ => true
  | .keep _ _ => false

/-- Network-facing protocol operations, for liveness-check auditing. -/
inductive Op
  | ensureLive
  | fetch (id : Nat)
  | store (id : Nat)
  | expunge
deriving DecidableEq

/-- The date parser together with the machine state it depends on and
the cutoff date (`self.cutoff_date`), all machine-local wall-clock. -/
structure Ctx where
  p : String → Option (Int × Option Int)
  localOff : Int
  cutoff : Int

/-- The classification step of `process_email_batch` for one fetched
message: the date filter first (keep when the date is Unknown or not
strictly older than the cutoff), the classifier only otherwise.  The
second component records whether `is_unnecessary_email_fast` was
invoked. -/
def classify_message (ctx : Ctx) (id : Nat) (h : Headers) : EmailResult × Bool :=
  let sender := extract_sender h.sender_full
  match parse_email_date ctx.p ctx.localOff h.date_str with
  | none => (.keep id "too_recent_or_no_date", false)
  | some email_date =>
    if ctx.cutoff ≤ email_date then (.keep id "too_recent_or_no_date", false)
    else
      match is_unnecessary_email_fast sender h.subject h.sender_full with
      | (true, reason) => (.delete id email_date h.sender_full h.subject reason, true)
      | (false, _) => (.keep id "not_unnecessary", true)

/-- One iteration of the per-message retry loop of
`process_email_batch`: attempt 0 fetches directly; on any failure,
attempt 1 first probes the connection (`reconnect_if_needed`) and, only
if the probe succeeds, re-fetches; a message failing both attempts
produces no record.  Returns the optional record and the trace of
network operations issued. -/
def process_one (ctx : Ctx) (e : Email) : Option EmailResult × List Op :=
  match e.a1 with
  | .ok h => (some (classify_message ctx e.id h).1, [.fetch e.id])
  | _ =>
    if e.reconnectOk then
      match e.a2 with
      | .ok h => (some (classify_message ctx e.id h).1, [.fetch e.id, .ensureLive, .fetch e.id])
      | _ => (none, [.fetch e.id, .ensureLive, .fetch e.id])
    else (none, [.fetch e.id, .ensureLive])

/-- Claim C2: a message whose parsed date is Unknown or not strictly
before the cutoff is recorded as Keep with the too-recent-or-no-date
reason (the source's `too_recent_or_no_date` constant) and the
classifier is not invoked; the classifier is invoked exactly when the
parsed date is strictly before the cutoff. -/
theorem date_filter_dominates (ctx : Ctx) (id : Nat) (h : Headers) :
    ((parse_email_date ctx.p ctx.localOff h.date_str = none ∨
      (∃ d, parse_email_date ctx.p ctx.localOff h.date_str = some d ∧ ctx.cutoff ≤ d)) →
      classify_message ctx id h = (.keep id "too_recent_or_no_date", false)) ∧
    ((classify_message ctx id h).2 = true ↔
      ∃ d, parse_email_date ctx.p ctx.localOff h.date_str = some d ∧ d < ctx.cutoff) := by
  constructor
  · rintro (hd | ⟨d, hd, hge⟩)
    · simp [classify_message, hd]
    · simp [classify_message, hd, if_pos hge]
  · constructor
    · intro hinv
      rcases hp : parse_email_date ctx.p ctx.localOff h.date_str with _ | d
      · simp [classify_message, hp] at hinv
      · by_cases hc : ctx.cutoff ≤ d
        · simp [classify_message, hp, if_pos hc] at hinv
        · exact ⟨d, rfl, lt_of_not_le hc⟩
    · rintro ⟨d, hd, hlt⟩
      have hc : ¬ ctx.cutoff ≤ d := not_le_of_lt hlt
      rcases hcl : is_unnecessary_email_fast (extract_sender h.sender_full) h.subject
          h.sender_full with ⟨b, reason⟩
      cases b <;> simp [classify_message, hd, if_neg hc, hcl]

/-- Witness for C2: a message with no Date header is kept without
classification, and a message dated before the cutoff invokes the
classifier. -/
theorem date_filter_dominates_witness :
    classify_message ⟨epochParser, 0, 100000⟩ 7 ⟨"friend@gmail.com", "Dinner?", ""⟩ =
      (.keep 7 "too_recent_or_no_date", false) ∧
    (classify_message ⟨epochParser, 0, 100000⟩ 7
      ⟨"friend@gmail.com", "Dinner?", "Thu, 01 Jan 1970 01:00:00 +0100"⟩).2 = true := by
  constructor
  · exact (date_filter_dominates ⟨epochParser, 0, 100000⟩ 7
      ⟨"friend@gmail.com", "Dinner?", ""⟩).1 (Or.inl rfl)
  · exact (date_filter_dominates ⟨epochParser, 0, 100000⟩ 7
      ⟨"friend@gmail.com", "Dinner?", "Thu, 01 Jan 1970 01:00:00 +0100"⟩).2.mpr
      ⟨0, rfl, by decide⟩

/-- The cooperative cancellation flag, modelled by the index of the
flag-poll at which it first reads true (`none`: never set).  Polls are
numbered globally in the order the scan performs them — one per batch at
the batch boundary and one per message inside `process_email_batch` —
and once set the flag stays set. -/
def checkCancel : Option Nat → Nat → Bool
  | none, _ => false
  | some n, k => decide (n ≤ k)

/-- Source function `process_email_batch(email_batch)`: per message, poll the stop flag
(breaking out of the batch when set), then run the fetch/retry/classify
step; a skipped message contributes no record.  `k` is the index of the
next flag poll; the returned index accounts for the polls performed. -/
def process_email_batch (ctx : Ctx) (c : Option Nat) (k : Nat) :
    List Email → List EmailResult × Nat
  | [] => ([], k)
  | e :: rest =>
    if checkCancel c k then ([], k)
    else
      let step := process_email_batch ctx c (k + 1) rest
      match (process_one ctx e).1 with
      | some r => (r :: step.1, step.2)
      | none => (step.1, step.2)

/-- The Python slicing loop `for i in range(0, len(l), batch_size):
batch = l[i:i+batch_size]`, as successive chunks. -/
def sliceBatches (batch_size : Nat) : List α → List (List α)
  | [] => []
  | e :: rest =>
    (e :: rest.take (batch_size - 1)) ::
      sliceBatches batch_size (rest.drop (batch_size - 1))
termination_by l => l.length
decreasing_by simp [List.length_drop]; omega

/-- Source function `fetch_email_headers_batch(email_ids, batch_size)`. -/
def fetch_email_headers_batch (batch_size : Nat) (email_ids : List Email) :
    List (List Email) :=
  sliceBatches batch_size email_ids

/-- The run counters and candidate list held on the `FastGmailCleanup`
object, reset at the start of `analyze_emails_fast`. -/
structure ScanState where
  processed : Nat
  deleted_count : Nat
  kept_count : Nat
  emails_to_delete : List EmailResult
deriving DecidableEq

def ScanState.init : ScanState := ⟨0, 0, 0, []⟩

/-- The per-result accounting in `analyze_emails_fast`'s results loop. -/
def applyResult (s : ScanState) (r : EmailResult) : ScanState :=
  match r with
  | .delete _ _ _ _ _ =>
    { s with
      processed := s.processed + 1
      emails_to_delete := s.emails_to_delete ++ [r]
      deleted_count := s.deleted_count + 1 }
  | .keep _ _ =>
    { s with
      processed := s.processed + 1
      kept_count := s.kept_count + 1 }

def applyResults (s : ScanState) (rs : List EmailResult) : ScanState :=
  rs.foldl applyResult s

/-- The batch loop of `analyze_emails_fast`: poll the stop flag before
each batch, process the batch, fold its results into the counters. -/
def analyzeGo (ctx : Ctx) (c : Option Nat) : Nat → ScanState → List (List Email) → ScanState
  | _, s, [] => s
  | k, s, b :: bs =>
    if checkCancel c k then s
    else
      let step := process_email_batch ctx c (k + 1) b
      analyzeGo ctx c step.2 (applyResults s step.1) bs

/-- Source function `analyze_emails_fast`: reset the counters, partition the unread ids
into batches of 100 and run the batch loop. -/
def analyze_emails_fast (ctx : Ctx) (c : Option Nat) (email_ids : List Email) : ScanState :=
  analyzeGo ctx c 0 ScanState.init (fetch_email_headers_batch 100 email_ids)

lemma sliceBatches_join (batch_size : Nat) :
    ∀ (n : Nat) (l : List α), l.length ≤ n → (sliceBatches batch_size l).flatten = l := by
  intro n
  induction n with
  | zero =>
    intro l hl
    have : l = [] := List.eq_nil_of_length_eq_zero (Nat.le_zero.mp hl)
    subst this
    simp [sliceBatches]
  | succ n ih =>
    intro l hl
    cases l with
    | nil => simp [sliceBatches]
    | cons e rest =>
      rw [sliceBatches]
      have hrest : (rest.drop (batch_size - 1)).length ≤ n := by
        simp only [List.length_drop]
        simp only [List.length_cons] at hl
        omega
      simp only [List.flatten_cons, ih _ hrest, List.cons_append, List.take_append_drop]

lemma sliceBatches_ne_nil (batch_size : Nat) :
    ∀ (n : Nat) (l : List α), l.length ≤ n → ∀ b ∈ sliceBatches batch_size l, b ≠ [] := by
  intro n
  induction n with
  | zero =>
    intro l hl
    have : l = [] := List.eq_nil_of_length_eq_zero (Nat.le_zero.mp hl)
    subst this
    simp [sliceBatches]
  | succ n ih =>
    intro l hl b hb
    cases l with
    | nil => simp [sliceBatches] at hb
    | cons e rest =>
      rw [sliceBatches] at hb
      rcases List.mem_cons.mp hb with hb | hb
      · subst hb; exact List.cons_ne_nil _ _
      · have hrest : (rest.drop (batch_size - 1)).length ≤ n := by
          simp only [List.length_drop]
          simp only [List.length_cons] at hl
          omega
        exact ih _ hrest b hb

lemma take_append_exact (l l' : List α) (m : Nat) :
    (l ++ l').take (l.length + m) = l ++ l'.take m := by
  induction l with
  | nil => simp
  | cons x xs ih => simp [List.cons_append, List.take_succ_cons, Nat.succ_add, ih]

lemma take_append_le (l l' : List α) (m : Nat) (h : m ≤ l.length) :
    (l ++ l').take m = l.take m := by
  induction l generalizing m with
  | nil =>
    have : m = 0 := Nat.le_zero.mp h
    subst this
    simp
  | cons x xs ih =>
    cases m with
    | zero => simp
    | succ m =>
      simp only [List.cons_append, List.take_succ_cons]
      rw [ih m (by simpa using Nat.succ_le_succ_iff.mp h)]

lemma take_all_le (l : List α) (n : Nat) (h : l.length ≤ n) : l.take n = l := by
  induction l generalizing n with
  | nil => simp
  | cons x xs ih =>
    cases n with
    | zero => simp at h
    | succ n =>
      simp only [List.take_succ_cons]
      rw [ih n (by simpa using Nat.succ_le_succ_iff.mp h)]

lemma filterMap_length_le (f : α → Option β) (l : List α) :
    (l.filterMap f).length ≤ l.length := by
  induction l with
  | nil => simp
  | cons x xs ih =>
    rcases hx : f x with _ | b <;> simp [List.filterMap_cons, hx] <;> omega

lemma filterMap_length_all_some (f : α → Option β) (l : List α)
    (h : ∀ x ∈ l, (f x).isSome) : (l.filterMap f).length = l.length := by
  induction l with
  | nil => simp
  | cons x xs ih =>
    rcases hx : f x with _ | b
    · have := h x (List.mem_cons_self x xs)
      rw [hx] at this
      simp at this
    · simp only [List.filterMap_cons, hx, List.length_cons]
      rw [ih fun y hy => h y (List.mem_cons_of_mem x hy)]

lemma countP_partition_length (rs : List EmailResult) :
    rs.countP EmailResult.isDelete + rs.countP (fun r => !r.isDelete) = rs.length := by
  induction rs with
  | nil => simp
  | cons r rest ih =>
    cases hr : r.isDelete <;> simp [List.countP_cons, hr] <;> omega

lemma applyResults_cons (s : ScanState) (r : EmailResult) (rs : List EmailResult) :
    applyResults s (r :: rs) = applyResults (applyResult s r) rs := rfl

lemma applyResults_processed (s : ScanState) (rs : List EmailResult) :
    (applyResults s rs).processed = s.processed + rs.length := by
  induction rs generalizing s with
  | nil => simp [applyResults]
  | cons r rest ih =>
    rw [applyResults_cons, ih]
    cases r <;> simp [applyResult] <;> omega

lemma applyResults_deleted (s : ScanState) (rs : List EmailResult) :
    (applyResults s rs).deleted_count = s.deleted_count + rs.countP EmailResult.isDelete := by
  induction rs generalizing s with
  | nil => simp [applyResults]
  | cons r rest ih =>
    rw [applyResults_cons, ih]
    cases r <;> simp [applyResult, List.countP_cons, EmailResult.isDelete] <;> omega

lemma applyResults_kept (s : ScanState) (rs : List EmailResult) :
    (applyResults s rs).kept_count = s.kept_count + rs.countP (fun r => !r.isDelete) := by
  induction rs generalizing s with
  | nil => simp [applyResults]
  | cons r rest ih =>
    rw [applyResults_cons, ih]
    cases r <;> simp [applyResult, List.countP_cons, EmailResult.isDelete] <;> omega

lemma applyResults_to_delete (s : ScanState) (rs : List EmailResult) :
    (applyResults s rs).emails_to_delete =
      s.emails_to_delete ++ rs.filter EmailResult.isDelete := by
  induction rs generalizing s with
  | nil => simp [applyResults]
  | cons r rest ih =>
    rw [applyResults_cons, ih]
    cases r <;> simp [applyResult, List.filter_cons, EmailResult.isDelete]

lemma applyResults_append (s : ScanState) (rs₁ rs₂ : List EmailResult) :
    applyResults s (rs₁ ++ rs₂) = applyResults (applyResults s rs₁) rs₂ :=
  List.foldl_append _ _ _ _

lemma process_email_batch_none (ctx : Ctx) (l : List Email) :
    ∀ k : Nat, process_email_batch ctx none k l =
      (l.filterMap (fun e => (process_one ctx e).1), k + l.length) := by
  induction l with
  | nil => intro k; simp [process_email_batch]
  | cons e rest ih =>
    intro k
    have hcc : checkCancel none k = false := rfl
    rw [process_email_batch, hcc]
    simp only [Bool.false_eq_true, if_false, ih (k + 1)]
    rcases hr : (process_one ctx e).1 with _ | r <;>
      simp [List.filterMap_cons, hr] <;> omega

lemma process_email_batch_some (ctx : Ctx) (nn : Nat) (l : List Email) :
    ∀ k : Nat, process_email_batch ctx (some nn) k l =
      ((l.take (nn - k)).filterMap (fun e => (process_one ctx e).1),
        k + min l.length (nn - k)) := by
  induction l with
  | nil => intro k; simp [process_email_batch]
  | cons e rest ih =>
    intro k
    by_cases hk : nn ≤ k
    · have hcc : checkCancel (some nn) k = true := decide_eq_true hk
      have h0 : nn - k = 0 := Nat.sub_eq_zero_of_le hk
      rw [process_email_batch, hcc]
      simp [h0]
    · have hcc : checkCancel (some nn) k = false := decide_eq_false hk
      have hsub : nn - k = (nn - (k + 1)) + 1 := by omega
      rw [process_email_batch, hcc]
      simp only [Bool.false_eq_true, if_false, ih (k + 1)]
      rcases hr : (process_one ctx e).1 with _ | r <;>
        simp [hsub, List.take_succ_cons, List.filterMap_cons, hr,
          List.length_cons, Nat.succ_min_succ] <;> omega

lemma analyzeGo_stop (ctx : Ctx) (nn : Nat) (k : Nat) (s : ScanState)
    (bs : List (List Email)) (h : nn ≤ k) :
    analyzeGo ctx (some nn) k s bs = s := by
  cases bs with
  | nil => rfl
  | cons b rest =>
    have hcc : checkCancel (some nn) k = true := decide_eq_true h
    rw [analyzeGo, hcc]
    simp

lemma analyzeGo_none (ctx : Ctx) (bs : List (List Email)) :
    ∀ (k : Nat) (s : ScanState),
      analyzeGo ctx none k s bs =
        applyResults s ((bs.flatten).filterMap (fun e => (process_one ctx e).1)) := by
  induction bs with
  | nil => intro k s; simp [analyzeGo, applyResults]
  | cons b rest ih =>
    intro k s
    have hcc : checkCancel none k = false := rfl
    rw [analyzeGo, hcc]
    simp only [Bool.false_eq_true, if_false, process_email_batch_none ctx b (k + 1), ih]
    rw [List.flatten_cons, List.filterMap_append, applyResults_append]

lemma analyzeGo_some (ctx : Ctx) (nn : Nat) (bs : List (List Email)) :
    ∀ (k : Nat) (s : ScanState), (∀ b ∈ bs, b ≠ []) →
      ∃ m, m ≤ (bs.flatten).length ∧
        analyzeGo ctx (some nn) k s bs =
          applyResults s (((bs.flatten).take m).filterMap (fun e => (process_one ctx e).1)) ∧
        (m = (bs.flatten).length → bs = [] ∨ k + bs.length + (bs.flatten).length ≤ nn) := by
  induction bs with
  | nil =>
    intro k s _
    exact ⟨0, by simp, by simp [analyzeGo, applyResults], fun _ => Or.inl rfl⟩
  | cons b rest ih =>
    intro k s hne
    have hbne : b ≠ [] := hne b (List.mem_cons_self b rest)
    by_cases hk : nn ≤ k
    · have hcc : checkCancel (some nn) k = true := decide_eq_true hk
      refine ⟨0, by simp, ?_, ?_⟩
      · rw [analyzeGo, hcc]
        simp [applyResults]
      · intro h0
        exfalso
        have hlen : b.length ≠ 0 := fun hz => hbne (List.eq_nil_of_length_eq_zero hz)
        rw [List.flatten_cons, List.length_append] at h0
        omega
    · have hcc : checkCancel (some nn) k = false := decide_eq_false hk
      rw [analyzeGo, hcc]
      simp only [Bool.false_eq_true, if_false, process_email_batch_some ctx nn b (k + 1)]
      by_cases hj : b.length ≤ nn - (k + 1)
      · -- the whole batch is processed before the flag is seen
        have htake : b.take (nn - (k + 1)) = b := take_all_le b _ hj
        have hmin : min b.length (nn - (k + 1)) = b.length := Nat.min_eq_left hj
        rw [htake, hmin]
        obtain ⟨m', hm'le, hstate, himp⟩ :=
          ih (k + 1 + b.length) (applyResults s (b.filterMap (fun e => (process_one ctx e).1)))
            (fun b' hb' => hne b' (List.mem_cons_of_mem b hb'))
        refine ⟨b.length + m', ?_, ?_, ?_⟩
        · rw [List.flatten_cons, List.length_append]
          omega
        · rw [hstate, List.flatten_cons, take_append_exact, List.filterMap_append,
            applyResults_append]
        · intro hmN
          rw [List.flatten_cons, List.length_append] at hmN
          have hm' : m' = (rest.flatten).length := by omega
          rcases himp hm' with hrest | hbound
          · right
            subst hrest
            have hlen : b.length ≠ 0 := fun hz => hbne (List.eq_nil_of_length_eq_zero hz)
            simp only [List.flatten_cons, List.flatten_nil, List.append_nil,
              List.length_cons, List.length_nil]
            omega
          · right
            simp only [List.flatten_cons, List.length_append, List.length_cons]
            omega
      · -- the flag is seen at a message boundary inside this batch
        have hj' : nn - (k + 1) < b.length := Nat.lt_of_not_le hj
        have hmin : min b.length (nn - (k + 1)) = nn - (k + 1) :=
          Nat.min_eq_right (Nat.le_of_lt hj')
        have hstopped : nn ≤ k + 1 + min b.length (nn - (k + 1)) := by
          rw [hmin]; omega
        rw [analyzeGo_stop ctx nn _ _ rest hstopped]
        refine ⟨nn - (k + 1), ?_, ?_, ?_⟩
        · rw [List.flatten_cons, List.length_append]
          omega
        · rw [List.flatten_cons, take_append_le b _ _ (Nat.le_of_lt hj')]
        · intro hmN
          exfalso
          rw [List.flatten_cons, List.length_append] at hmN
          omega

lemma flatten_take_le (bs : List (List α)) (n : Nat) :
    ((bs.take n).flatten).length ≤ (bs.flatten).length := by
  conv_rhs => rw [← List.take_append_drop n bs]
  rw [List.flatten_append, List.length_append]
  omega

lemma applied_invariant (ctx : Ctx) (msgs : List Email) :
    (applyResults ScanState.init (msgs.filterMap fun e => (process_one ctx e).1)).deleted_count +
        (applyResults ScanState.init (msgs.filterMap fun e => (process_one ctx e).1)).kept_count =
      (applyResults ScanState.init (msgs.filterMap fun e => (process_one ctx e).1)).processed ∧
    (applyResults ScanState.init (msgs.filterMap fun e => (process_one ctx e).1)).processed ≤
      msgs.length := by
  constructor
  · rw [applyResults_deleted, applyResults_kept, applyResults_processed]
    simp only [ScanState.init, Nat.zero_add]
    exact countP_partition_length _
  · rw [applyResults_processed]
    simp only [ScanState.init, Nat.zero_add]
    exact filterMap_length_le _ _

/-- Claim C4: after every fully consumed batch the number of recorded
delete outcomes plus keep outcomes equals the processed count, which
never exceeds the number of unread ids; and a full uncancelled scan in
which every message yields a record ends with
deleted + kept = processed = total unread count. -/
theorem scan_accounting (ctx : Ctx) (email_ids : List Email) (c : Option Nat) (n : Nat) :
    ((analyzeGo ctx c 0 ScanState.init
          ((fetch_email_headers_batch 100 email_ids).take n)).deleted_count +
        (analyzeGo ctx c 0 ScanState.init
          ((fetch_email_headers_batch 100 email_ids).take n)).kept_count =
        (analyzeGo ctx c 0 ScanState.init
          ((fetch_email_headers_batch 100 email_ids).take n)).processed ∧
      (analyzeGo ctx c 0 ScanState.init
          ((fetch_email_headers_batch 100 email_ids).take n)).processed ≤
        email_ids.length) ∧
    ((∀ e ∈ email_ids, ((process_one ctx e).1).isSome) →
      (analyze_emails_fast ctx none email_ids).deleted_count +
          (analyze_emails_fast ctx none email_ids).kept_count =
        (analyze_emails_fast ctx none email_ids).processed ∧
      (analyze_emails_fast ctx none email_ids).processed = email_ids.length) := by
  have hjoin : ((sliceBatches 100 email_ids).flatten) = email_ids :=
    sliceBatches_join 100 email_ids.length email_ids (Nat.le_refl _)
  have hlenflat : ((fetch_email_headers_batch 100 email_ids).take n).flatten.length ≤
      email_ids.length := by
    have h1 := flatten_take_le (sliceBatches 100 email_ids) n
    rw [hjoin] at h1
    exact h1
  constructor
  · rcases c with _ | nn
    · rw [analyzeGo_none]
      have h := applied_invariant ctx ((fetch_email_headers_batch 100 email_ids).take n).flatten
      exact ⟨h.1, Nat.le_trans h.2 hlenflat⟩
    · obtain ⟨m, hm, hstate, -⟩ :=
        analyzeGo_some ctx nn ((fetch_email_headers_batch 100 email_ids).take n) 0
          ScanState.init
          (fun b hb => sliceBatches_ne_nil 100 email_ids.length email_ids (Nat.le_refl _) b
            (List.take_subset n _ hb))
      rw [hstate]
      have h := applied_invariant ctx
        (((fetch_email_headers_batch 100 email_ids).take n).flatten.take m)
      refine ⟨h.1, Nat.le_trans h.2 ?_⟩
      refine Nat.le_trans ?_ hlenflat
      rw [List.length_take]
      omega
  · intro hall
    have heq : analyze_emails_fast ctx none email_ids =
        applyResults ScanState.init (email_ids.filterMap fun e => (process_one ctx e).1) := by
      rw [analyze_emails_fast, analyzeGo_none]
      rw [show (fetch_email_headers_batch 100 email_ids).flatten = email_ids from hjoin]
    rw [heq]
    refine ⟨(applied_invariant ctx email_ids).1, ?_⟩
    rw [applyResults_processed]
    simp only [ScanState.init, Nat.zero_add]
    exact filterMap_length_all_some _ _ hall

/-- A fetchable sample message for witnesses. -/
def wEmail (i : Nat) : Email :=
  ⟨i, .ok ⟨"a@b.com", "hi", ""⟩, true, .ok ⟨"a@b.com", "hi", ""⟩⟩

/-- A sample context for witnesses. -/
def wCtx : Ctx := ⟨epochParser, 0, 0⟩

/-- Witness for C4 on a one-message mailbox whose single fetch
succeeds. -/
theorem scan_accounting_witness :
    (analyze_emails_fast wCtx none [wEmail 1]).deleted_count +
        (analyze_emails_fast wCtx none [wEmail 1]).kept_count =
      (analyze_emails_fast wCtx none [wEmail 1]).processed ∧
    (analyze_emails_fast wCtx none [wEmail 1]).processed = [wEmail 1].length := by
  exact (scan_accounting wCtx [wEmail 1] none 1).2 (by decide)

/-- Claim C5: when the cancellation flag is set no later than the last
flag poll of the run, the scan stops at a message or batch boundary:
the final processed count is strictly below the unread total, the
recorded delete list is a prefix of the uncancelled run's delete list,
and the whole final state is exactly the fold of the records of an
initial segment of the unread ids — so no message of an unscanned batch
appears in any tally. -/
theorem scan_cancellation (ctx : Ctx) (email_ids : List Email) (nn : Nat)
    (h : nn < (fetch_email_headers_batch 100 email_ids).length + email_ids.length) :
    (analyze_emails_fast ctx (some nn) email_ids).processed < email_ids.length ∧
    (analyze_emails_fast ctx (some nn) email_ids).emails_to_delete <+:
      (analyze_emails_fast ctx none email_ids).emails_to_delete ∧
    ∃ m, m < email_ids.length ∧
      analyze_emails_fast ctx (some nn) email_ids =
        applyResults ScanState.init
          ((email_ids.take m).filterMap fun e => (process_one ctx e).1) := by
  have hjoin : ((sliceBatches 100 email_ids).flatten) = email_ids :=
    sliceBatches_join 100 email_ids.length email_ids (Nat.le_refl _)
  obtain ⟨m, hm, hstate, himp⟩ :=
    analyzeGo_some ctx nn (sliceBatches 100 email_ids) 0 ScanState.init
      (sliceBatches_ne_nil 100 email_ids.length email_ids (Nat.le_refl _))
  rw [hjoin] at hm hstate himp
  have hsc : analyze_emails_fast ctx (some nn) email_ids =
      applyResults ScanState.init
        ((email_ids.take m).filterMap fun e => (process_one ctx e).1) := hstate
  have hmlt : m < email_ids.length := by
    rcases Nat.lt_or_ge m email_ids.length with h1 | h2
    · exact h1
    · exfalso
      have hmeq : m = email_ids.length := Nat.le_antisymm hm h2
      rcases himp hmeq with hnil | hbound
      · have hids : email_ids = [] := by rw [← hjoin, hnil]; rfl
        rw [fetch_email_headers_batch, hids] at h
        simp [sliceBatches] at h
      · rw [fetch_email_headers_batch] at h
        omega
  refine ⟨?_, ?_, ⟨m, hmlt, hsc⟩⟩
  · rw [hsc, applyResults_processed]
    simp only [ScanState.init, Nat.zero_add]
    refine Nat.lt_of_le_of_lt (Nat.le_trans (filterMap_length_le _ _) ?_) hmlt
    rw [List.length_take]
    omega
  · have hfull : analyze_emails_fast ctx none email_ids =
        applyResults ScanState.init (email_ids.filterMap fun e => (process_one ctx e).1) := by
      rw [analyze_emails_fast, analyzeGo_none]
      rw [show (fetch_email_headers_batch 100 email_ids).flatten = email_ids from hjoin]
    rw [hsc, hfull, applyResults_to_delete, applyResults_to_delete]
    simp only [ScanState.init, List.nil_append]
    refine ⟨((email_ids.drop m).filterMap fun e => (process_one ctx e).1).filter
      EmailResult.isDelete, ?_⟩
    rw [← List.filter_append, ← List.filterMap_append, List.take_append_drop]

/-- Witness for C5: a two-message mailbox with the flag set at the very
first poll processes nothing; its delete list is trivially a prefix of
the full run's. -/
theorem scan_cancellation_witness :
    (analyze_emails_fast wCtx (some 0) [wEmail 1, wEmail 2]).processed <
      [wEmail 1, wEmail 2].length ∧
    (analyze_emails_fast wCtx (some 0) [wEmail 1, wEmail 2]).emails_to_delete <+:
      (analyze_emails_fast wCtx none [wEmail 1, wEmail 2]).emails_to_delete := by
  have h := scan_cancellation wCtx [wEmail 1, wEmail 2] 0
    (by rw [fetch_email_headers_batch]; simp [sliceBatches])
  exact ⟨h.1, h.2.1⟩

/-- Claim C7: a message whose first header fetch fails gets exactly one
local retry — a liveness probe followed (when the probe succeeds) by a
re-fetch; if the retry path also fails the message produces no record,
so it is counted as neither kept nor deleted, and the records of the
batch are exactly those of the batch with that message removed — the
remaining messages are still processed. -/
theorem message_retry_and_skip (ctx : Ctx) (e : Email) (k : Nat) (b1 b2 : List Email)
    (h1 : e.a1.isOk = false) (h2 : e.reconnectOk = false ∨ e.a2.isOk = false) :
    (process_one ctx e).1 = none ∧
    (e.reconnectOk = true →
      (process_one ctx e).2 = [Op.fetch e.id, Op.ensureLive, Op.fetch e.id]) ∧
    (process_email_batch ctx none k (b1 ++ e :: b2)).1 =
      (process_email_batch ctx none k (b1 ++ b2)).1 := by
  have hnone : (process_one ctx e).1 = none := by
    obtain ⟨i, a1, rec, a2⟩ := e
    cases a1 with
    | ok hh => simp [FetchOutcome.isOk] at h1
    | badStatus =>
      cases rec with
      | false => rfl
      | true =>
        rcases h2 with h2 | h2
        · simp at h2
        · cases a2 with
          | ok hh => simp [FetchOutcome.isOk] at h2
          | badStatus => rfl
          | exn => rfl
    | exn =>
      cases rec with
      | false => rfl
      | true =>
        rcases h2 with h2 | h2
        · simp at h2
        · cases a2 with
          | ok hh => simp [FetchOutcome.isOk] at h2
          | badStatus => rfl
          | exn => rfl
  refine ⟨hnone, ?_, ?_⟩
  · intro hrec
    obtain ⟨i, a1, rec, a2⟩ := e
    simp only at hrec
    subst hrec
    cases a1 with
    | ok hh => simp [FetchOutcome.isOk] at h1
    | badStatus => cases a2 <;> rfl
    | exn => cases a2 <;> rfl
  · rw [process_email_batch_none, process_email_batch_none]
    simp [List.filterMap_append, List.filterMap_cons, hnone]

/-- Witness for C7: a message failing with an exception and then a bad
status is skipped while its two batch companions are both recorded. -/
theorem message_retry_and_skip_witness :
    (process_one wCtx ⟨9, .exn, true, .badStatus⟩).1 = none ∧
    (process_one wCtx ⟨9, .exn, true, .badStatus⟩).2 =
      [Op.fetch 9, Op.ensureLive, Op.fetch 9] ∧
    (process_email_batch wCtx none 0 ([wEmail 1] ++ ⟨9, .exn, true, .badStatus⟩ ::
        [wEmail 2])).1 =
      (process_email_batch wCtx none 0 ([wEmail 1] ++ [wEmail 2])).1 := by
  have h := message_retry_and_skip wCtx ⟨9, .exn, true, .badStatus⟩ 0 [wEmail 1] [wEmail 2]
    (by decide) (Or.inr (by decide))
  exact ⟨h.1, h.2.1 rfl, h.2.2⟩

/-- Oracles for the deletion executor: whether the per-message
`store(+FLAGS \Deleted)` call succeeds for a given id, and whether the
final `expunge` call succeeds. -/
structure DeleteEnv where
  storeOk : Nat → Bool
  expungeOk : Bool

/-- Outcome of `delete_emails_fast`: the printed success/failure
counters, whether the expunge failure warning was printed, and the
trace of protocol operations issued. -/
structure DeletionReport where
  successful : Nat
  failed : Nat
  expungeWarning : Bool
  trace : List Op
deriving DecidableEq

/-- The per-candidate body of the deletion loop: one store call,
counted as successful or failed. -/
def delete_store_step (env : DeleteEnv) (acc : Nat × Nat × List Op) (r : EmailResult) :
    Nat × Nat × List Op :=
  if env.storeOk r.rid then (acc.1 + 1, acc.2.1, acc.2.2 ++ [Op.store r.rid])
  else (acc.1, acc.2.1 + 1, acc.2.2 ++ [Op.store r.rid])

/-- Source function `delete_emails_fast()`: slice the candidate list into sub-batches of
50, flag each candidate (counting per-message failures without
aborting), then issue a single expunge; an expunge failure is reported
as a warning and changes no counter. -/
def delete_emails_fast (env : DeleteEnv) (emails_to_delete : List EmailResult) :
    DeletionReport :=
  let batches := sliceBatches 50 emails_to_delete
  let acc := batches.foldl (fun a batch => batch.foldl (delete_store_step env) a) (0, 0, [])
  { successful := acc.1
    failed := acc.2.1
    expungeWarning := !env.expungeOk
    trace := acc.2.2 ++ [Op.expunge] }

lemma delete_store_step_foldl (env : DeleteEnv) (l : List EmailResult) :
    ∀ a : Nat × Nat × List Op,
      l.foldl (delete_store_step env) a =
        (a.1 + l.countP (fun r => env.storeOk r.rid),
          a.2.1 + l.countP (fun r => !env.storeOk r.rid),
          a.2.2 ++ l.map (fun r => Op.store r.rid)) := by
  induction l with
  | nil => intro a; simp
  | cons r rest ih =>
    intro a
    rw [List.foldl_cons, ih]
    cases hr : env.storeOk r.rid <;>
      simp [delete_store_step, hr, List.countP_cons, List.append_assoc] <;> omega

lemma foldl_over_batches (f : α → β → α) (bs : List (List β)) :
    ∀ a : α, bs.foldl (fun a b => b.foldl f a) a = (bs.flatten).foldl f a := by
  induction bs with
  | nil => intro a; simp
  | cons b rest ih =>
    intro a
    rw [List.foldl_cons, ih, List.flatten_cons, List.foldl_append]

lemma delete_emails_fast_spec (env : DeleteEnv) (cands : List EmailResult) :
    delete_emails_fast env cands =
      { successful := cands.countP (fun r => env.storeOk r.rid)
        failed := cands.countP (fun r => !env.storeOk r.rid)
        expungeWarning := !env.expungeOk
        trace := cands.map (fun r => Op.store r.rid) ++ [Op.expunge] } := by
  rw [delete_emails_fast]
  rw [foldl_over_batches (delete_store_step env) (sliceBatches 50 cands) (0, 0, [])]
  rw [sliceBatches_join 50 cands.length cands (Nat.le_refl _)]
  rw [delete_store_step_foldl env cands (0, 0, [])]
  simp

/-- Claim C6: the deletion executor slices candidates into sub-batches
of 50 but still issues exactly one store call per candidate and then
exactly one expunge after all of them; per-message failures are counted
without aborting the rest; an expunge failure only raises the warning —
counters are independent of it, so all-stores-succeeding reports
successful = N and failed = 0 even when the expunge fails. -/
theorem deletion_executor_spec (env : DeleteEnv) (cands : List EmailResult) :
    (delete_emails_fast env cands).trace =
      cands.map (fun r => Op.store r.rid) ++ [Op.expunge] ∧
    (delete_emails_fast env cands).successful = cands.countP (fun r => env.storeOk r.rid) ∧
    (delete_emails_fast env cands).failed = cands.countP (fun r => !env.storeOk r.rid) ∧
    (delete_emails_fast env cands).expungeWarning = !env.expungeOk ∧
    ((∀ r ∈ cands, env.storeOk r.rid = true) →
      (delete_emails_fast env cands).successful = cands.length ∧
      (delete_emails_fast env cands).failed = 0) := by
  rw [delete_emails_fast_spec]
  refine ⟨rfl, rfl, rfl, rfl, fun hall => ⟨?_, ?_⟩⟩
  · exact List.countP_eq_length.mpr hall
  · rw [List.countP_eq_zero]
    intro r hr
    rw [hall r hr]
    decide

/-- Witness for C6, Scenario E: both flaggings succeed and the expunge
fails; the report still shows successful = 2, failed = 0, plus the
warning. -/
theorem deletion_executor_spec_witness :
    (delete_emails_fast ⟨fun _ => true, false⟩
        [.delete 1 0 "a" "s" "r", .delete 2 0 "b" "t" "r"]).successful = 2 ∧
    (delete_emails_fast ⟨fun _ => true, false⟩
        [.delete 1 0 "a" "s" "r", .delete 2 0 "b" "t" "r"]).failed = 0 ∧
    (delete_emails_fast ⟨fun _ => true, false⟩
        [.delete 1 0 "a" "s" "r", .delete 2 0 "b" "t" "r"]).expungeWarning = true := by
  have h := deletion_executor_spec ⟨fun _ => true, false⟩
    [.delete 1 0 "a" "s" "r", .delete 2 0 "b" "t" "r"]
  have h5 := h.2.2.2.2 (by intro r hr; rfl)
  exact ⟨h5.1, h5.2, h.2.2.2.1⟩

/-- Network operations as opposed to the liveness probe. -/
def isNetOp : Op → Bool
  | .ensureLive => false
  | _ => true

def livePrecededGo : Option Op → List Op → Bool
  | _, [] => true
  | prev, o :: rest =>
    (!isNetOp o || decide (prev = some Op.ensureLive)) && livePrecededGo (some o) rest

/-- Claim C9's property of a trace: every network-facing operation is
immediately preceded by a liveness check. -/
def livePreceded (t : List Op) : Bool :=
  livePrecededGo none t

/-- Counterexample to claim C9: the deletion executor issues its store
and expunge calls with no liveness check anywhere, and the batch
scanner's first fetch attempt for a message is likewise not preceded by
one. -/
theorem liveness_check_cex :
    livePreceded (delete_emails_fast ⟨fun _ => true, true⟩
        [EmailResult.delete 1 0 "a" "s" "r"]).trace = false ∧
    livePreceded (process_one wCtx (wEmail 1)).2 = false := by
  constructor
  · rw [delete_emails_fast_spec]
    decide
  · decide

/-- Claim C9 as amended: the deletion executor issues no liveness check
at all before its store and expunge calls, and in the batch scanner only
the retry attempt is preceded by a liveness check — the first fetch
attempt of every message is issued directly. -/
theorem liveness_check_amended (ctx : Ctx) (env : DeleteEnv)
    (cands : List EmailResult) (e : Email) :
    (delete_emails_fast env cands).trace.countP (fun o => decide (o = Op.ensureLive)) = 0 ∧
    (process_one ctx e).2 =
      (if e.a1.isOk then [Op.fetch e.id]
       else if e.reconnectOk then [Op.fetch e.id, Op.ensureLive, Op.fetch e.id]
       else [Op.fetch e.id, Op.ensureLive]) := by
  constructor
  · rw [delete_emails_fast_spec]
    simp only [List.countP_append]
    have hstore : (cands.map fun r => Op.store r.rid).countP
        (fun o => decide (o = Op.ensureLive)) = 0 := by
      rw [List.countP_eq_zero]
      intro o ho
      rcases List.mem_map.mp ho with ⟨r, -, hr⟩
      subst hr
      simp
    have hexp : ([Op.expunge] : List Op).countP (fun o => decide (o = Op.ensureLive)) = 0 := by
      decide
    omega
  · obtain ⟨i, a1, rec, a2⟩ := e
    cases a1 with
    | ok hh => rfl
    | badStatus => cases rec <;> cases a2 <;> rfl
    | exn => cases rec <;> cases a2 <;> rfl

/-- The confirmation gate of `show_analysis_results`: in dry-run mode
the deletion routine is never called; otherwise it is called exactly
when deletion candidates exist and the prompt reply, lowercased, is the
string yes.  The returned boolean is whether `delete_emails_fast` is
invoked. -/
def show_analysis_results (dry_run : Bool) (deleted_count : Nat) (confirm : String) : Bool :=
  if dry_run then false
  else if 0 < deleted_count then decide (str_lower confirm = "yes") else false

/-- Claim C1: deletion (flagging plus expunge) is invoked only when not
in dry-run mode, deletion candidates exist, and the user's reply to the
confirmation prompt lowercases to yes; in dry-run mode it is never
invoked, whatever the scan outcome. -/
theorem confirmation_gate (dry_run : Bool) (deleted_count : Nat) (confirm : String) :
    show_analysis_results dry_run deleted_count confirm = true ↔
      (dry_run = false ∧ 0 < deleted_count ∧ str_lower confirm = "yes") := by
  cases dry_run with
  | true => simp [show_analysis_results]
  | false =>
    by_cases hdc : 0 < deleted_count <;> simp [show_analysis_results, hdc]

end EmailCleanup
